import Mathlib

/-!
Verification of the constellation distributed-process runtime core.

This file gives a shallow embedding of the parts of the repository that the
checked properties concern: the `parse_binary_size` helper of
`constellation-internal/src/ext.rs`, the reservoir sampler `Rand` of the same
file, the channel-construction checks, the byte-stream adapters and the bridge
event loop of `src/lib.rs`, and the early-exit prefix of `init`. Pure
functions of the source become Lean functions; the effectful channel layer is
embedded with its reactor registration state passed explicitly and with panics
made explicit outcome constructors.
-/

namespace Constellation

/-- Decimal value of a list of ASCII digit characters, most significant digit
first, as computed by Rust `str::parse::<u64>` on an all-digit slice. -/
def digitsVal (l : List Char) : Nat :=
  l.foldl (fun a c => 10 * a + (c.toNat - 48)) 0

/-- Rust `slice.parse::<u64>().ok()` for the slices `parse_binary_size`
produces (empty or all-digit): `none` for the empty slice, for a non-digit
character, and for overflow past `u64::MAX`; the source calls `.unwrap()` on
the result, so `none` here means the source panics. -/
def parseU64 (l : List Char) : Option Nat :=
  if l.isEmpty then none
  else if l.all Char.isDigit then
    if digitsVal l < 2 ^ 64 then some (digitsVal l) else none
  else none

/-- The unit-suffix table of `parse_binary_size` (`ext.rs` lines 174 to 183):
`B, KiB, MiB, GiB, TiB, PiB, EiB` map to `1024 ^ 0` up to `1024 ^ 6`. -/
def suffixMultiplier (l : List Char) : Option Nat :=
  if l = "B".toList then some 1
  else if l = "KiB".toList then some 1024
  else if l = "MiB".toList then some (1024 ^ 2)
  else if l = "GiB".toList then some (1024 ^ 3)
  else if l = "TiB".toList then some (1024 ^ 4)
  else if l = "PiB".toList then some (1024 ^ 5)
  else if l = "EiB".toList then some (1024 ^ 6)
  else none

/-- Result of `parse_binary_size` with panics made explicit: `panicked` for a
failed `.unwrap()` of an integer parse (empty digit prefix, or overflow past
`u64::MAX`), `unimplemented` for the not-yet-implemented marker reached when a
nonzero fractional part is combined with a recognised unit suffix. -/
inductive ParseOutcome where
  | ok (n : Nat)
  | err
  | panicked
  | unimplemented
deriving DecidableEq, Repr

/-- Index at which the trailing unit suffix of `parse_binary_size` begins: the
first non-digit index, advanced past a fractional part when one is present.
This mirrors the index arithmetic of `ext.rs` lines 147 to 170. -/
def suffixStart (input : List Char) : Nat :=
  let index := input.findIdx (fun c => !c.isDigit)
  if input.getD index ' ' = '.' then
    (index + 1) + (input.drop (index + 1)).findIdx (fun c => !c.isDigit)
  else index

/-- Shallow embedding of `parse_binary_size` (`ext.rs` lines 142 to 188) at
the character level; character indexing agrees with the byte indexing of the
source on ASCII input. Control flow mirrors the source: the leading digit run
is parsed and unwrapped; a full-length digit run returns early; a fractional
part led by a full stop is scanned (the `_zeros` count of the source is unused
there and omitted here) and its digit run parsed and unwrapped; a full-length
fractional run returns early; the remaining characters are matched against the
suffix table; a nonzero fractional value with a recognised suffix reaches
`unimplemented!()`; the final `u64` product wraps at `2 ^ 64`. -/
def parse_binary_size (input : List Char) : ParseOutcome :=
  if input.length = 0 then .err
  else
    let index := input.findIdx (fun c => !c.isDigit)
    match parseU64 (input.take index) with
    | none => .panicked
    | some a =>
      if index = input.length then .ok a
      else
        let step : Option (Nat × Nat) :=
          if input.getD index ' ' = '.' then
            let i1 := index + 1
            let j := i1 + (input.drop i1).findIdx (fun c => !c.isDigit)
            if j ≠ i1 then
              match parseU64 ((input.drop i1).take (j - i1)) with
              | none => none
              | some b => some (b, j)
            else some (0, j)
          else some (0, index)
        match step with
        | none => .panicked
        | some (b, index2) =>
          if index2 = input.length then .ok a
          else
            match suffixMultiplier (input.drop index2) with
            | none => .err
            | some c => if b > 0 then .unimplemented else .ok (a * c % 2 ^ 64)

/-- The reservoir sampler of `ext.rs` lines 106 to 137: `res` is the current
choice and `count` the number of values pushed. -/
structure Rand (α : Type) where
  res : Option α
  count : Nat

/-- `Rand::new` (`ext.rs` lines 114 to 119). -/
def Rand.new {α : Type} : Rand α :=
  { res := none, count := 0 }

/-- `Rand::push` (`ext.rs` lines 121 to 126): the count is incremented and the
new value replaces the choice when `rng.gen_range(0, count)` draws 0. The raw
draw `g` is reduced modulo the (incremented) count, which is how a uniform
draw from `[0, count)` is embedded. -/
def Rand.push {α : Type} (r : Rand α) (x : α) (g : Nat) : Rand α :=
  let count := r.count + 1
  if g % count = 0 then { res := some x, count := count }
  else { res := r.res, count := count }

/-- `Rand::get` (`ext.rs` lines 128 to 130). -/
def Rand.get {α : Type} (r : Rand α) : Option α :=
  r.res

/-- Modelled from the spec: the readiness poll of `channel::select` (the
`channel` module is outside the embedded sources). `ready` is the immediate-
readiness test of each `Selectable` token; the poll yields the indices of the
ready tokens in order. -/
def readyIdxs {α : Type} (tokens : List α) (ready : α → Bool) : List Nat :=
  (tokens.enum.filter (fun p => ready p.2)).map Prod.fst

/-- Reservoir sampling (size 1) over a list of candidate indices using `Rand`
of `ext.rs`; `rng k` is the raw draw of the k-th push. -/
def reservoirPick (idxs : List Nat) (rng : Nat → Nat) : Option Nat :=
  (idxs.foldl (fun r i => r.push i (rng r.count)) Rand.new).get

/-- Modelled from the spec: one committing round of `channel::select`. Among
the tokens polled ready, one index is chosen by reservoir sampling and
committed; the uncommitted tokens are returned in their original order. When
no token is ready the caller parks and repolls, which is represented by the
`none` outcome. -/
def channelSelect {α : Type} (tokens : List α) (ready : α → Bool)
    (rng : Nat → Nat) : Option (Nat × List α) :=
  match reservoirPick (readyIdxs tokens ready) rng with
  | none => none
  | some i => some (i, tokens.eraseIdx i)

/-- A process identifier. Modelled from the spec: a Pid pairs an IP address
and a listening TCP port and its equality is structural (the concrete type
lives in `constellation-internal`, outside the embedded sources). -/
structure Pid where
  ip : Nat
  port : Nat
deriving DecidableEq, Repr

/-- Modelled from the spec: the reactor registration state that channel
construction consults, keyed by remote pid and direction. The endpoint
uniqueness invariant allows at most one live endpoint per remote pid and
direction, irrespective of the element type. -/
structure ReactorState where
  senders : List Pid
  receivers : List Pid
deriving DecidableEq, Repr

/-- Modelled from the spec: the reactor peer-mailbox registration used by
`channel::Sender::new`; it returns `none` exactly when a live `Sender` to
`remote` already exists. -/
def sender_register (r : ReactorState) (remote : Pid) : Option ReactorState :=
  if remote ∈ r.senders then none
  else some { r with senders := remote :: r.senders }

/-- Modelled from the spec: the reactor peer-mailbox registration used by
`channel::Receiver::new`; it returns `none` exactly when a live `Receiver` to
`remote` already exists. -/
def recv_register (r : ReactorState) (remote : Pid) : Option ReactorState :=
  if remote ∈ r.receivers then none
  else some { r with receivers := remote :: r.receivers }

/-- Which endpoint kind a panic diagnostic of `Sender::new` or
`Receiver::new` names in its message text. -/
inductive EndpointKind where
  | sender
  | receiver
deriving DecidableEq, Repr

/-- Outcome of `Sender::<T>::new` and `Receiver::<T>::new` (`src/lib.rs`
lines 137 to 156 and 301 to 320), with each `panic!` an explicit constructor
carrying the data its message formats: `panicSelfChannel k t` is the panic
whose message reads "<k>::<t>::new() called with the process own pid. A
process cannot create a channel to itself."; `panicNoInit` is the panic
"You must call init() immediately inside your application main() function";
`panicDuplicate k t p` is the panic whose message reads "<k>::<t>::new()
called for pid <p> when a <k> to this pid already exists". -/
inductive NewOutcome where
  | ok (r : ReactorState)
  | panicSelfChannel (named : EndpointKind) (t : String)
  | panicNoInit
  | panicDuplicate (named : EndpointKind) (t : String) (remote : Pid)
deriving DecidableEq, Repr

/-- `Sender::<T>::new` (`src/lib.rs` lines 137 to 156): the self-channel
check runs first, before the REACTOR global is even read; an unset REACTOR
global (`reactor = none`, the state before `init` completes) panics with the
missing-init diagnostic; a failed registration panics with the duplicate
diagnostic naming a Sender. `t` is the formatted element type name. -/
def senderNew (t : String) (selfPid remote : Pid)
    (reactor : Option ReactorState) : NewOutcome :=
  if remote = selfPid then .panicSelfChannel .sender t
  else
    match reactor with
    | none => .panicNoInit
    | some r =>
      match sender_register r remote with
      | some r2 => .ok r2
      | none => .panicDuplicate .sender t remote

/-- `Receiver::<T>::new` (`src/lib.rs` lines 301 to 320), same shape as
`senderNew`. The duplicate panic carries `EndpointKind.sender` because the
source message at line 315 reads "Sender::<T>::new() called for pid ... when
a Sender to this pid already exists" inside `Receiver::new`. -/
def receiverNew (t : String) (selfPid remote : Pid)
    (reactor : Option ReactorState) : NewOutcome :=
  if remote = selfPid then .panicSelfChannel .receiver t
  else
    match reactor with
    | none => .panicNoInit
    | some r =>
      match recv_register r remote with
      | some r2 => .ok r2
      | none => .panicDuplicate .sender t remote

/-- Outcome of the `resources()` accessor (`src/lib.rs` lines 483 to 487). -/
inductive ResourcesOutcome (Res : Type) where
  | ok (r : Res)
  | panicNoInit
deriving DecidableEq

/-- The `resources()` accessor (`src/lib.rs` lines 483 to 487): the RESOURCES
global is unset (`none`) before `init` completes, in which case the call
panics with the missing-init diagnostic. -/
def resourcesCall {Res : Type} (global : Option Res) : ResourcesOutcome Res :=
  match global with
  | none => .panicNoInit
  | some r => .ok r

/-- Outcome of the dispatch prefix of `spawn` (`src/lib.rs` lines 690 to
708): reading an unset DEPLOYED global panics with the missing-init
diagnostic, otherwise control reaches `spawn_deployed` or `spawn_native`. -/
inductive SpawnOutcome where
  | panicNoInit
  | native
  | deployed
deriving DecidableEq, Repr

/-- The dispatch prefix of `spawn` (`src/lib.rs` lines 690 to 708). -/
def spawnDispatch (deployedGlobal : Option Bool) : SpawnOutcome :=
  match deployedGlobal with
  | none => .panicNoInit
  | some b => if b then .deployed else .native

/-- The tail loop of `write` on a borrowed `Sender<u8>` (`src/lib.rs` lines
212 to 218): byte `i` of the buffer (counting from 0 over the whole buffer)
is sent only while `async_send` returns `Some`. `avail i` models whether the
attempt for byte `i` finds the reactor immediately able to accept (modelled
from the spec: `async_send` returns a one-shot callable only if progress can
be made immediately). Returns how many of these bytes were sent, with the
bytes themselves. -/
def sendAvail (avail : Nat → Bool) : List Nat → Nat → Nat × List Nat
  | [], _ => (0, [])
  | b :: bs, i =>
    if avail i then
      let r := sendAvail avail bs (i + 1)
      (r.1 + 1, b :: r.2)
    else (0, [])

/-- The `write` implementation on a borrowed `Sender<u8>` (`src/lib.rs` lines
204 to 220): an empty buffer returns 0 with nothing sent; otherwise the first
byte goes through the blocking `send` (which parks until queued and always
succeeds) and each later byte only while `async_send` is immediately
available. Returns the `Ok` value of `write` paired with the bytes actually
sent, in order; the source returns `Ok` on every path. -/
def senderWrite (avail : Nat → Bool) (buf : List Nat) : Nat × List Nat :=
  match buf with
  | [] => (0, [])
  | b :: bs =>
    let r := sendAvail avail bs 1
    (1 + r.1, b :: r.2)

/-- The channel error type surfaced to user code (`channel::ChannelError`). -/
inductive ChannelError where
  | exited
  | error
deriving DecidableEq, Repr

/-- The two `io::ErrorKind`s the byte-stream adapters produce. -/
inductive IOErrorKind where
  | unexpectedEof
  | connectionReset
deriving DecidableEq, Repr

/-- The error mapping of the read adapters on a borrowed `Receiver<u8>`
(`src/lib.rs` lines 374 to 377 and 398 to 401). -/
def mapChannelErr : ChannelError → IOErrorKind
  | .exited => .unexpectedEof
  | .error => .connectionReset

/-- What one `async_recv` attempt observes (modelled from the spec: the
nonblocking variant returns a one-shot callable only when progress can be
made immediately; invoking it completes the receive with a `Result`). -/
inductive AsyncRecv where
  | notReady
  | ready (r : Except ChannelError Nat)

/-- The tail loop of `read` on a borrowed `Receiver<u8>` (`src/lib.rs` lines
381 to 391): slot `i` is filled only if the attempt `events i` is immediately
ready and completes with `Ok`; on `notReady` or a failed receive the loop
stops. Returns how many of these slots were filled, with the bytes. -/
def recvAvail (events : Nat → AsyncRecv) : Nat → Nat → Nat × List Nat
  | 0, _ => (0, [])
  | n + 1, i =>
    match events i with
    | .notReady => (0, [])
    | .ready (.error _) => (0, [])
    | .ready (.ok t) =>
      let r := recvAvail events n (i + 1)
      (r.1 + 1, t :: r.2)

/-- The `read` implementation on a borrowed `Receiver<u8>` (`src/lib.rs`
lines 370 to 392) into a buffer of length `bufLen`: an empty buffer returns
`Ok 0`; otherwise the first slot comes from the blocking `recv`, whose
failure `first = .error e` is returned as the `io::Error` given by
`mapChannelErr e`, while later failures end the read with `Ok` and the count
so far. Returns the `Ok` count paired with the received bytes, or the mapped
error. -/
def receiverRead (first : Except ChannelError Nat) (events : Nat → AsyncRecv)
    (bufLen : Nat) : Except IOErrorKind (Nat × List Nat) :=
  if bufLen = 0 then .ok (0, [])
  else
    match first with
    | .error e => .error (mapChannelErr e)
    | .ok b =>
      if bufLen = 1 then .ok (1, [b])
      else
        let r := recvAvail events (bufLen - 1) 1
        .ok (1 + r.1, b :: r.2)

/-- The `read_exact` implementation on a borrowed `Receiver<u8>`
(`src/lib.rs` lines 396 to 404) into a buffer of the given length: every slot
is filled by a blocking `recv` (`recvs i` is the result of the i-th one), and
every failure is returned as an `io::Error` through `mapChannelErr`. -/
def receiverReadExact (recvs : Nat → Except ChannelError Nat) :
    Nat → Nat → Except IOErrorKind (List Nat)
  | 0, _ => .ok []
  | n + 1, i =>
    match recvs i with
    | .error e => .error (mapChannelErr e)
    | .ok b =>
      match receiverReadExact recvs n (i + 1) with
      | .error e => .error e
      | .ok bs => .ok (b :: bs)

/-- Modelled from the spec: `ExitStatus` is Success or an Error carrying a
Unix exit status or a Unix signal (the type lives in
`constellation-internal`, outside the embedded sources). -/
inductive ExitStatus where
  | success
  | errorStatus (code : Nat)
  | errorSignal (sig : Nat)
deriving DecidableEq, Repr

/-- Modelled from the spec: the `+=` combination of exit statuses used by the
bridge loop. Success is the identity and any error dominates, so an error
accumulator absorbs everything after it and multiple errors merge to the
first observed. -/
def ExitStatus.combine : ExitStatus → ExitStatus → ExitStatus
  | .success, x => x
  | .errorStatus c, _ => .errorStatus c
  | .errorSignal s, _ => .errorSignal s

/-- A lifecycle event a monitor reports to the bridge (`ProcessOutputEvent`
of `constellation-internal`; payloads beyond what the bridge loop inspects
are carried as plain data). -/
inductive POEvent where
  | spawn (newPid : Pid)
  | output (fd : Nat) (bytes : List Nat)
  | exit (code : ExitStatus)
deriving DecidableEq, Repr

/-- The state the bridge loop of `native_bridge` (`src/lib.rs` lines 796 to
863) threads: the remote pids of the live descendant channel pairs and the
folded aggregate exit status (initially `ExitStatus::Success`, line 796). -/
structure BridgeState where
  processes : List Pid
  exitCode : ExitStatus
deriving DecidableEq, Repr

/-- One iteration of the bridge loop (`src/lib.rs` lines 836 to 855) applied
to the event selected from descendant `i`: `Spawn` pushes a new channel pair,
`Output` leaves the descendant set unchanged, `Exit` folds the status into
the aggregate with `+=` and removes entry `i`. -/
def bridgeStep (s : BridgeState) (i : Nat) (e : POEvent) : BridgeState :=
  match e with
  | .spawn p => { s with processes := s.processes ++ [p] }
  | .output _ _ => s
  | .exit c =>
    { processes := s.processes.eraseIdx i
      exitCode := s.exitCode.combine c }

/-- The bridge loop folded over a trace of selected (descendant index, event)
pairs; the loop of the source runs until the descendant set is empty and then
exits the process with the aggregate. -/
def bridgeRun (s : BridgeState) (tr : List (Nat × POEvent)) : BridgeState :=
  tr.foldl (fun s ie => bridgeStep s ie.1 ie.2) s

/-- How the early prefix of `init` (`src/lib.rs` lines 1160 to 1185) leaves
the process: `exitVersion out` is `process::exit(0)` after writing `out` to
stdout; `exitRecce r` is `process::exit(0)` after bincode-serialising the
declared resources `r` to file descriptor 3; `panicAssert` is the failure of
the assertion that recce is not also set; `proceed` hands control to the rest
of `init`. -/
inductive InitEarly (Res : Type) where
  | exitVersion (out : String)
  | exitRecce (r : Res)
  | panicAssert
  | proceed
deriving DecidableEq, Repr

/-- The early-exit prefix of `init` (`src/lib.rs` lines 1175 to 1185). `ver`
is the cargo package version string baked in at build time; `version` and
`recce` are the parsed booleans of CONSTELLATION_VERSION and
CONSTELLATION_RECCE (modelled from the spec: the `Envs` parser of
`constellation-internal` maps the value 1 to true). -/
def initEarly {Res : Type} (ver : String) (resources : Res)
    (version recce : Bool) : InitEarly Res :=
  if version then
    if recce then .panicAssert
    else .exitVersion ("deploy-lib " ++ ver)
  else if recce then .exitRecce resources
  else .proceed

/-- The exit statuses carried by the Exit events of a bridge trace, in
order of observation. -/
def exitCodes (tr : List (Nat × POEvent)) : List ExitStatus :=
  tr.filterMap (fun ie =>
    match ie.2 with
    | .exit c => some c
    | _ => none)

example : parse_binary_size "123".toList = .ok 123 := by decide
example : parse_binary_size "4KiB".toList = .ok 4096 := by decide
example : parse_binary_size "1MiB".toList = .ok (1024 * 1024) := by decide
example : parse_binary_size "0.5KiB".toList = .unimplemented := by decide
example : parse_binary_size "4.0KiB".toList = .ok 4096 := by decide
example : parse_binary_size "4.".toList = .ok 4 := by decide
example : parse_binary_size "4.5".toList = .ok 4 := by decide
example : parse_binary_size "12buckle".toList = .err := by decide
example : parse_binary_size "".toList = .err := by decide
example : parse_binary_size "KiB".toList = .panicked := by decide
example : parse_binary_size ".5".toList = .panicked := by decide

/-- C4: for every element type and in every reactor state, initialised or
not, constructing a Sender or a Receiver whose remote pid is the pid of the
calling process panics with the self-channel diagnostic naming that endpoint
kind; the check precedes the read of the REACTOR global, so no channel state
is registered. -/
theorem channel_to_self_panics (t : String) (p : Pid)
    (reactor : Option ReactorState) :
    senderNew t p p reactor = .panicSelfChannel .sender t ∧
    receiverNew t p p reactor = .panicSelfChannel .receiver t := by
  constructor <;> simp [senderNew, receiverNew]

/-- C5 (code-bug evidence): with a live Receiver to pid (0, 2) registered, a
second `Receiver::<String>::new` to (0, 2) is detected and panics as the
claim says, but its diagnostic names a Sender endpoint, the copy-paste
message of `src/lib.rs` line 315; the symmetric Sender case panics with a
diagnostic correctly naming a Sender. -/
theorem receiver_duplicate_diagnostic_names_sender :
    receiverNew "String" (Pid.mk 0 1) (Pid.mk 0 2)
        (some { senders := [], receivers := [Pid.mk 0 2] })
      = .panicDuplicate .sender "String" (Pid.mk 0 2) ∧
    senderNew "String" (Pid.mk 0 1) (Pid.mk 0 2)
        (some { senders := [Pid.mk 0 2], receivers := [] })
      = .panicDuplicate .sender "String" (Pid.mk 0 2) := by
  constructor <;> rfl

/-- C6: before `init` has completed (REACTOR, DEPLOYED and RESOURCES globals
unset), `Sender::new` and `Receiver::new` to a remote other than the own pid
(whose check precedes), the dispatch prefix of `spawn`, and `resources` all
panic with the missing-init diagnostic. -/
theorem missing_init_panics (t : String) (selfPid remote : Pid)
    (h : remote ≠ selfPid) :
    senderNew t selfPid remote none = .panicNoInit ∧
    receiverNew t selfPid remote none = .panicNoInit ∧
    spawnDispatch none = .panicNoInit ∧
    resourcesCall (none : Option Nat) = .panicNoInit := by
  refine ⟨?_, ?_, rfl, rfl⟩ <;> simp [senderNew, receiverNew, h]

theorem missing_init_panics_witness :
    Pid.mk 0 2 ≠ Pid.mk 0 1 ∧
    senderNew "u8" (Pid.mk 0 1) (Pid.mk 0 2) none = .panicNoInit :=
  ⟨by decide, (missing_init_panics "u8" (Pid.mk 0 1) (Pid.mk 0 2) (by decide)).1⟩

/-- C9 counterexample: with both CONSTELLATION_VERSION and
CONSTELLATION_RECCE parsed as 1, `init` fails its assertion that recce is not
set, and panics; it does not serialize the resources to file descriptor 3 and
exit 0, as the claim states for every environment with recce set. -/
theorem init_version_and_recce_asserts :
    initEarly "0.1.4" (0 : Nat) true true = .panicAssert ∧
    initEarly "0.1.4" (0 : Nat) true true ≠ .exitRecce 0 := by
  constructor
  · rfl
  · intro h
    simp [initEarly] at h

/-- C9 as amended: when CONSTELLATION_VERSION is 1 and CONSTELLATION_RECCE is
not, `init` writes the version line to stdout and exits 0 without returning
to user code; when CONSTELLATION_RECCE is 1 and CONSTELLATION_VERSION is not,
`init` serializes the declared Resources to file descriptor 3 and exits 0. -/
theorem init_early_exit {Res : Type} (ver : String) (res : Res) :
    initEarly ver res true false = .exitVersion ("deploy-lib " ++ ver) ∧
    initEarly ver res false true = .exitRecce res :=
  ⟨rfl, rfl⟩

theorem sendAvail_le_take (avail : Nat → Bool) :
    ∀ (bs : List Nat) (i : Nat),
      (sendAvail avail bs i).1 ≤ bs.length ∧
      (sendAvail avail bs i).2 = bs.take (sendAvail avail bs i).1
  | [], i => by simp [sendAvail]
  | b :: bs, i => by
    have ih := sendAvail_le_take avail bs (i + 1)
    simp only [sendAvail]
    by_cases h : avail i
    · simp only [h, if_true]
      exact ⟨Nat.succ_le_succ ih.1, by simp [List.take_succ_cons, ih.2]⟩
    · simp [h]

/-- C7: the `write` implementation on a borrowed `Sender<u8>` returns `Ok 0`
for an empty buffer, sending nothing; for a non-empty buffer it returns
`Ok k` with 1 ≤ k ≤ buf.len(), having sent exactly the k leading bytes in
order (the first through the always-successful blocking send, the rest only
while `async_send` was immediately available); every path returns `Ok`. -/
theorem sender_write_prefix (avail : Nat → Bool) (b : Nat) (bs : List Nat) :
    senderWrite avail [] = (0, []) ∧
    1 ≤ (senderWrite avail (b :: bs)).1 ∧
    (senderWrite avail (b :: bs)).1 ≤ (b :: bs).length ∧
    (senderWrite avail (b :: bs)).2
      = (b :: bs).take (senderWrite avail (b :: bs)).1 := by
  have h := sendAvail_le_take avail bs 1
  refine ⟨rfl, ?_, ?_, ?_⟩
  · simp [senderWrite]
  · simp only [senderWrite, List.length_cons]
    omega
  · simp only [senderWrite]
    rw [Nat.add_comm 1 (sendAvail avail bs 1).1, List.take_succ_cons, h.2]

theorem recvAvail_len (events : Nat → AsyncRecv) :
    ∀ (n i : Nat), (recvAvail events n i).2.length = (recvAvail events n i).1
  | 0, _ => rfl
  | n + 1, i => by
    simp only [recvAvail]
    split
    · rfl
    · rfl
    · simp [recvAvail_len events n (i + 1)]

theorem receiverReadExact_error_shape (recvs : Nat → Except ChannelError Nat) :
    ∀ (n i : Nat) (k : IOErrorKind),
      receiverReadExact recvs n i = .error k → ∃ e, k = mapChannelErr e
  | 0, i, k => by simp [receiverReadExact]
  | n + 1, i, k => by
    simp only [receiverReadExact]
    cases h : recvs i with
    | error e =>
      intro he
      exact ⟨e, (Except.error.inj he).symm⟩
    | ok b =>
      cases h2 : receiverReadExact recvs n (i + 1) with
      | error e2 =>
        intro he
        obtain ⟨e, he2⟩ := receiverReadExact_error_shape recvs n (i + 1) e2 h2
        exact ⟨e, (Except.error.inj he).symm.trans he2⟩
      | ok bs =>
        intro he
        cases he

/-- C8: the `read` implementation on a borrowed `Receiver<u8>` returns `Ok 0`
on an empty buffer regardless of channel state; when the first blocking
`recv` fails the error is returned mapped with Exited to UnexpectedEof and
Error to ConnectionReset; `read_exact` applies the same mapping to every
failed recv; and a failure after the first byte makes `read` return `Ok`
with the count received so far instead of an error. -/
theorem receiver_read_error_mapping (events : Nat → AsyncRecv)
    (recvs : Nat → Except ChannelError Nat) :
    (∀ first, receiverRead first events 0 = .ok (0, [])) ∧
    (mapChannelErr .exited = .unexpectedEof ∧
      mapChannelErr .error = .connectionReset) ∧
    (∀ (e : ChannelError) (n : Nat),
      receiverRead (.error e) events (n + 1) = .error (mapChannelErr e)) ∧
    (∀ (e : ChannelError) (n i : Nat), recvs i = .error e →
      receiverReadExact recvs (n + 1) i = .error (mapChannelErr e)) ∧
    (∀ (n i : Nat) (k : IOErrorKind),
      receiverReadExact recvs n i = .error k → ∃ e, k = mapChannelErr e) ∧
    (∀ (b n : Nat), ∃ k l, receiverRead (.ok b) events n = .ok (k, l) ∧
      l.length = k) := by
  refine ⟨?_, ⟨rfl, rfl⟩, ?_, ?_, receiverReadExact_error_shape recvs, ?_⟩
  · intro first; rfl
  · intro e n; rfl
  · intro e n i h
    simp [receiverReadExact, h]
  · intro b n
    match n with
    | 0 => exact ⟨0, [], rfl, rfl⟩
    | 1 => exact ⟨1, [b], rfl, rfl⟩
    | n + 2 =>
      refine ⟨1 + (recvAvail events (n + 1) 1).1,
        b :: (recvAvail events (n + 1) 1).2, ?_, ?_⟩
      · simp [receiverRead]
      · simp [recvAvail_len events (n + 1) 1, Nat.add_comm]

theorem receiver_read_error_mapping_witness :
    (fun _ : Nat => (Except.error ChannelError.exited : Except ChannelError Nat)) 0
        = .error .exited ∧
    receiverReadExact
        (fun _ => (Except.error ChannelError.exited : Except ChannelError Nat)) 1 0
      = .error (mapChannelErr .exited) :=
  ⟨rfl, (receiver_read_error_mapping (fun _ => .notReady)
    (fun _ => .error .exited)).2.2.2.1 .exited 0 0 rfl⟩

theorem combine_error_absorbs (x y : ExitStatus) (h : x ≠ .success) :
    x.combine y = x := by
  cases x with
  | success => exact absurd rfl h
  | errorStatus c => rfl
  | errorSignal s => rfl

theorem foldl_combine_error (l : List ExitStatus) :
    ∀ a : ExitStatus, a ≠ .success → l.foldl ExitStatus.combine a = a := by
  induction l with
  | nil => intro a _; rfl
  | cons c l ih =>
    intro a h
    rw [List.foldl_cons, combine_error_absorbs a c h]
    exact ih a h

theorem foldl_combine_success_iff (l : List ExitStatus) :
    ∀ a : ExitStatus, l.foldl ExitStatus.combine a = .success ↔
      (a = .success ∧ ∀ c ∈ l, c = .success) := by
  induction l with
  | nil => intro a; simp
  | cons c l ih =>
    intro a
    rw [List.foldl_cons]
    by_cases ha : a = ExitStatus.success
    · subst ha
      have hc : ExitStatus.combine .success c = c := rfl
      rw [hc, ih c]
      constructor
      · rintro ⟨hc1, hl⟩
        refine ⟨rfl, ?_⟩
        intro x hx
        rcases List.mem_cons.1 hx with h | h
        · exact h ▸ hc1
        · exact hl x h
      · rintro ⟨-, hl⟩
        exact ⟨hl c (List.mem_cons_self c l),
          fun x hx => hl x (List.mem_cons_of_mem c hx)⟩
    · rw [combine_error_absorbs a c ha, foldl_combine_error l a ha]
      simp [ha]

theorem bridgeRun_exitCode (tr : List (Nat × POEvent)) :
    ∀ s : BridgeState, (bridgeRun s tr).exitCode
      = (exitCodes tr).foldl ExitStatus.combine s.exitCode := by
  induction tr with
  | nil => intro s; rfl
  | cons ie tr ih =>
    intro s
    obtain ⟨i, e⟩ := ie
    cases e with
    | spawn p =>
      simpa [bridgeRun, exitCodes, bridgeStep, List.filterMap_cons]
        using ih { s with processes := s.processes ++ [p] }
    | output fd bytes =>
      simpa [bridgeRun, exitCodes, bridgeStep, List.filterMap_cons] using ih s
    | exit c =>
      simpa [bridgeRun, exitCodes, bridgeStep, List.filterMap_cons]
        using ih { processes := s.processes.eraseIdx i
                   exitCode := s.exitCode.combine c }

theorem exitCodes_mem_iff (tr : List (Nat × POEvent)) :
    (∀ c ∈ exitCodes tr, c = ExitStatus.success) ↔
      (∀ ie ∈ tr, ∀ c, ie.2 = POEvent.exit c → c = ExitStatus.success) := by
  constructor
  · intro h ie hie c hc
    refine h c (List.mem_filterMap.2 ⟨ie, hie, ?_⟩)
    rw [hc]
  · intro h c hc
    obtain ⟨ie, hie, hf⟩ := List.mem_filterMap.1 hc
    obtain ⟨i, e⟩ := ie
    cases e with
    | spawn p => cases hf
    | output fd bytes => cases hf
    | exit c2 =>
      cases hf
      exact h (i, POEvent.exit c) hie c rfl

/-- C2: the combination of exit statuses the bridge folds with is monoidal
with Success as identity, any error dominates (so two errors merge to the
first observed, the accumulator), and the aggregate status the bridge loop
holds once its descendant set has emptied is Success exactly when every Exit
event it folded carried Success. -/
theorem bridge_exit_status (x y z : ExitStatus) (ps : List Pid)
    (tr : List (Nat × POEvent))
    (hempty : (bridgeRun { processes := ps, exitCode := .success } tr).processes
      = []) :
    (ExitStatus.combine .success x = x ∧
     ExitStatus.combine x .success = x ∧
     ExitStatus.combine (ExitStatus.combine x y) z
       = ExitStatus.combine x (ExitStatus.combine y z) ∧
     (x ≠ .success → ExitStatus.combine x y = x)) ∧
    ((bridgeRun { processes := ps, exitCode := .success } tr).exitCode
        = .success ↔
      ∀ ie ∈ tr, ∀ c, ie.2 = POEvent.exit c → c = ExitStatus.success) := by
  constructor
  · refine ⟨rfl, ?_, ?_, combine_error_absorbs x y⟩
    · cases x <;> rfl
    · cases x <;> rfl
  · rw [bridgeRun_exitCode tr { processes := ps, exitCode := .success },
      foldl_combine_success_iff]
    simp only [true_and]
    exact exitCodes_mem_iff tr

theorem bridge_exit_status_witness :
    (bridgeRun { processes := [Pid.mk 0 1], exitCode := .success }
        [(0, POEvent.exit .success)]).processes = [] ∧
    ExitStatus.combine .success .success = .success :=
  ⟨by decide,
    (bridge_exit_status .success .success .success [Pid.mk 0 1]
      [(0, POEvent.exit .success)] (by decide)).1.1⟩

theorem Rand_push_res {α : Type} (r : Rand α) (x : α) (g : Nat) :
    (r.push x g).res = some x ∨ (r.push x g).res = r.res := by
  unfold Rand.push
  by_cases h : g % (r.count + 1) = 0 <;> simp [h]

theorem Rand_push_isSome {α : Type} (r : Rand α) (x : α) (g : Nat)
    (h : r.res.isSome) : ((r.push x g).res).isSome := by
  rcases Rand_push_res r x g with h2 | h2 <;> simp [h2, h]

theorem Rand_push_new {α : Type} (x : α) (g : Nat) :
    ((Rand.new : Rand α).push x g).res = some x := by
  unfold Rand.push Rand.new
  simp [Nat.mod_one]

theorem reservoir_fold_cases (rng : Nat → Nat) (l : List Nat) :
    ∀ r : Rand Nat,
      (l.foldl (fun r i => r.push i (rng r.count)) r).res = r.res ∨
      ∃ i ∈ l, (l.foldl (fun r i => r.push i (rng r.count)) r).res = some i := by
  induction l with
  | nil => intro r; left; rfl
  | cons a l ih =>
    intro r
    rw [List.foldl_cons]
    rcases ih (r.push a (rng r.count)) with h | ⟨i, hi, h⟩
    · rcases Rand_push_res r a (rng r.count) with h2 | h2
      · right; exact ⟨a, List.mem_cons_self a l, h.trans h2⟩
      · left; exact h.trans h2
    · right; exact ⟨i, List.mem_cons_of_mem a hi, h⟩

theorem reservoir_fold_isSome (rng : Nat → Nat) (l : List Nat) :
    ∀ r : Rand Nat, r.res.isSome →
      ((l.foldl (fun r i => r.push i (rng r.count)) r).res).isSome := by
  induction l with
  | nil => intro r h; exact h
  | cons a l ih =>
    intro r h
    rw [List.foldl_cons]
    exact ih _ (Rand_push_isSome r a _ h)

theorem reservoirPick_mem (idxs : List Nat) (rng : Nat → Nat)
    (h : idxs ≠ []) : ∃ i ∈ idxs, reservoirPick idxs rng = some i := by
  cases idxs with
  | nil => exact absurd rfl h
  | cons a l =>
    have hsome : ((List.foldl (fun r i => r.push i (rng r.count))
        (Rand.new : Rand Nat) (a :: l)).res).isSome := by
      rw [List.foldl_cons]
      exact reservoir_fold_isSome rng l _ (by rw [Rand_push_new]; rfl)
    rcases reservoir_fold_cases rng (a :: l) (Rand.new : Rand Nat) with h2 | h2
    · rw [h2] at hsome
      cases hsome
    · obtain ⟨i, hi, h3⟩ := h2
      exact ⟨i, hi, h3⟩

theorem readyIdxs_sound {α : Type} (tokens : List α) (ready : α → Bool) :
    ∀ i ∈ readyIdxs tokens ready, ∃ x, tokens[i]? = some x ∧ ready x = true := by
  intro i hi
  unfold readyIdxs at hi
  rcases List.mem_map.1 hi with ⟨p, hp, hpi⟩
  rcases List.mem_filter.1 hp with ⟨hpe, hpr⟩
  have hg := List.mem_enum_iff_getElem?.1 hpe
  exact ⟨p.2, hpi ▸ hg, hpr⟩

theorem readyIdxs_ne_nil {α : Type} (tokens : List α) (ready : α → Bool)
    (h : ∃ t ∈ tokens, ready t = true) : readyIdxs tokens ready ≠ [] := by
  obtain ⟨t, ht, hr⟩ := h
  obtain ⟨i, hi, hget⟩ := List.mem_iff_getElem.1 ht
  intro hnil
  have henum : (i, t) ∈ tokens.enum :=
    List.mem_enum_iff_getElem?.2 (by simp [List.getElem?_eq_getElem hi, hget])
  have : i ∈ readyIdxs tokens ready :=
    List.mem_map.2 ⟨(i, t), List.mem_filter.2 ⟨henum, hr⟩, rfl⟩
  rw [hnil] at this
  cases this

/-- C1: a committing round of `select` on a token vector with at least one
ready token commits exactly one token (the one at the returned index, which
is ready and so transfers its value or invokes its consumer exactly once when
committed) and yields the remaining tokens.len() - 1 tokens: exactly the
uncommitted ones, in their original identities and order. -/
theorem select_commits_exactly_one {α : Type} (tokens : List α)
    (ready : α → Bool) (rng : Nat → Nat)
    (h : ∃ t ∈ tokens, ready t = true) :
    ∃ i rest, channelSelect tokens ready rng = some (i, rest) ∧
      i < tokens.length ∧
      (∃ x, tokens[i]? = some x ∧ ready x = true) ∧
      rest = tokens.take i ++ tokens.drop (i + 1) ∧
      rest.length = tokens.length - 1 := by
  obtain ⟨i, hi_mem, hpick⟩ := reservoirPick_mem (readyIdxs tokens ready) rng
    (readyIdxs_ne_nil tokens ready h)
  obtain ⟨x, hx, hrx⟩ := readyIdxs_sound tokens ready i hi_mem
  have hlt : i < tokens.length := by
    obtain ⟨hl, -⟩ := List.getElem?_eq_some.1 hx
    exact hl
  refine ⟨i, tokens.eraseIdx i, ?_, hlt, ⟨x, hx, hrx⟩, ?_, ?_⟩
  · unfold channelSelect
    rw [hpick]
  · exact List.eraseIdx_eq_take_drop_succ tokens i
  · rw [List.length_eraseIdx]
    simp [hlt]

theorem select_commits_exactly_one_witness :
    (∃ t ∈ [10, 20], (fun x => decide (x = 20)) t = true) ∧
    (∃ i rest,
      channelSelect [10, 20] (fun x => decide (x = 20)) (fun _ => 0)
        = some (i, rest) ∧
      i < ([10, 20] : List Nat).length ∧
      (∃ x, ([10, 20] : List Nat)[i]? = some x ∧ decide (x = 20) = true) ∧
      rest = ([10, 20] : List Nat).take i ++ ([10, 20] : List Nat).drop (i + 1) ∧
      rest.length = ([10, 20] : List Nat).length - 1) :=
  ⟨⟨20, by decide, by decide⟩,
    select_commits_exactly_one [10, 20] (fun x => decide (x = 20)) (fun _ => 0)
      ⟨20, by decide, by decide⟩⟩

theorem findIdx_append_all_false {α : Type} (p : α → Bool) (l₂ : List α) :
    ∀ l₁ : List α, (∀ c ∈ l₁, p c = false) →
      List.findIdx p (l₁ ++ l₂) = l₁.length + List.findIdx p l₂ := by
  intro l₁
  induction l₁ with
  | nil => intro _; simp
  | cons a l ih =>
    intro h
    have ha : p a = false := h a (List.mem_cons_self a l)
    rw [List.cons_append, List.findIdx_cons, ha,
      ih (fun c hc => h c (List.mem_cons_of_mem a hc))]
    simp only [cond_false, List.length_cons]
    omega

theorem findIdx_all_false {α : Type} (p : α → Bool) (l : List α)
    (h : ∀ c ∈ l, p c = false) : List.findIdx p l = l.length := by
  have := findIdx_append_all_false p [] l h
  simpa using this

theorem findIdx_cons_true {α : Type} (p : α → Bool) (a : α) (l : List α)
    (h : p a = true) : List.findIdx p (a :: l) = 0 := by
  rw [List.findIdx_cons, h]
  rfl

theorem getD_append_head (l₁ : List Char) (c : Char) (t : List Char)
    (d : Char) : (l₁ ++ c :: t).getD l₁.length d = c := by
  rw [List.getD_eq_getElem?_getD, List.getElem?_append_right (Nat.le_refl _)]
  simp

theorem parseU64_digits (ds : List Char) (h1 : ds ≠ [])
    (h2 : ∀ c ∈ ds, c.isDigit = true) (h3 : digitsVal ds < 2 ^ 64) :
    parseU64 ds = some (digitsVal ds) := by
  unfold parseU64
  rw [if_neg (by simp [List.isEmpty_iff, h1]),
    if_pos (List.all_eq_true.2 h2), if_pos h3]

theorem suffixMultiplier_shape (suf : List Char) (m : Nat)
    (h : suffixMultiplier suf = some m) :
    ∃ c t, suf = c :: t ∧ c.isDigit = false ∧ c ≠ '.' := by
  unfold suffixMultiplier at h
  split_ifs at h with h1 h2 h3 h4 h5 h6 h7
  · exact ⟨'B', [], h1, rfl, by decide⟩
  · exact ⟨'K', ['i', 'B'], h2, rfl, by decide⟩
  · exact ⟨'M', ['i', 'B'], h3, rfl, by decide⟩
  · exact ⟨'G', ['i', 'B'], h4, rfl, by decide⟩
  · exact ⟨'T', ['i', 'B'], h5, rfl, by decide⟩
  · exact ⟨'P', ['i', 'B'], h6, rfl, by decide⟩
  · exact ⟨'E', ['i', 'B'], h7, rfl, by decide⟩

/-- Evaluation of `parse_binary_size` on a pure run of digits whose value
fits in `u64`. -/
theorem parse_digits_only (ds : List Char) (hne : ds ≠ [])
    (hds : ∀ c ∈ ds, c.isDigit = true) (hval : digitsVal ds < 2 ^ 64) :
    parse_binary_size ds = .ok (digitsVal ds) := by
  have hidx : ds.findIdx (fun c => !c.isDigit) = ds.length :=
    findIdx_all_false _ ds (fun c hc => by simp [hds c hc])
  have hlen0 : ¬ ds.length = 0 := by
    simpa [List.length_eq_zero] using hne
  unfold parse_binary_size
  rw [if_neg hlen0]
  simp only [hidx, List.take_length]
  rw [parseU64_digits ds hne hds hval]
  simp

/-- Evaluation of `parse_binary_size` on a digit run followed by a non-digit
remainder that does not open a fractional part. -/
theorem parse_digits_nodigit (ds : List Char) (c : Char) (t : List Char)
    (hne : ds ≠ []) (hds : ∀ x ∈ ds, x.isDigit = true)
    (hval : digitsVal ds < 2 ^ 64) (hc : c.isDigit = false) (hdot : c ≠ '.') :
    parse_binary_size (ds ++ c :: t) =
      match suffixMultiplier (c :: t) with
      | none => .err
      | some m => .ok (digitsVal ds * m % 2 ^ 64) := by
  have hpfalse : ∀ x ∈ ds, (fun x : Char => !x.isDigit) x = false := by
    intro x hx
    simp [hds x hx]
  have hidx : List.findIdx (fun x => !x.isDigit) (ds ++ c :: t) = ds.length := by
    rw [findIdx_append_all_false _ _ ds hpfalse,
      findIdx_cons_true _ c t (by simp [hc])]
    omega
  have htake : List.take ds.length (ds ++ c :: t) = ds :=
    List.take_left ds (c :: t)
  have hdrop : List.drop ds.length (ds ++ c :: t) = c :: t :=
    List.drop_left ds (c :: t)
  have hgetd : (ds ++ c :: t).getD ds.length ' ' = c := getD_append_head ds c t ' '
  have hlen0 : ¬ (ds ++ c :: t).length = 0 := by
    simp [List.length_append]
  have hlenne : ¬ ds.length = (ds ++ c :: t).length := by
    simp only [List.length_append, List.length_cons]
    omega
  unfold parse_binary_size
  rw [if_neg hlen0]
  simp only [hidx, htake, hdrop, hgetd]
  rw [parseU64_digits ds hne hds hval]
  simp only [if_neg hlenne, if_neg hdot]
  cases hm : suffixMultiplier (c :: t) with
  | none => simp [hm]
  | some m => simp [hm]

/-- Evaluation of `parse_binary_size` on a digit run, a full stop, a
fractional digit run, and a non-digit remainder. -/
theorem parse_digits_fraction (ds fs : List Char) (c : Char) (t : List Char)
    (hne : ds ≠ []) (hds : ∀ x ∈ ds, x.isDigit = true)
    (hval : digitsVal ds < 2 ^ 64)
    (hfs : ∀ x ∈ fs, x.isDigit = true) (hfval : digitsVal fs < 2 ^ 64)
    (hc : c.isDigit = false) :
    parse_binary_size (ds ++ '.' :: (fs ++ c :: t)) =
      match suffixMultiplier (c :: t) with
      | none => .err
      | some m =>
        if 0 < digitsVal fs then .unimplemented
        else .ok (digitsVal ds * m % 2 ^ 64) := by
  have hpfalse : ∀ x ∈ ds, (fun x : Char => !x.isDigit) x = false := by
    intro x hx
    simp [hds x hx]
  have hfsfalse : ∀ x ∈ fs, (fun x : Char => !x.isDigit) x = false := by
    intro x hx
    simp [hfs x hx]
  have hidx : List.findIdx (fun x => !x.isDigit) (ds ++ '.' :: (fs ++ c :: t))
      = ds.length := by
    rw [findIdx_append_all_false _ _ ds hpfalse,
      findIdx_cons_true _ '.' (fs ++ c :: t) (by decide)]
    omega
  have htake : List.take ds.length (ds ++ '.' :: (fs ++ c :: t)) = ds :=
    List.take_left ds ('.' :: (fs ++ c :: t))
  have hgetd : (ds ++ '.' :: (fs ++ c :: t)).getD ds.length ' ' = '.' :=
    getD_append_head ds '.' (fs ++ c :: t) ' '
  have hsplit1 : ds ++ '.' :: (fs ++ c :: t) = (ds ++ ['.']) ++ (fs ++ c :: t) := by
    simp
  have hdropi1 : List.drop (ds.length + 1) (ds ++ '.' :: (fs ++ c :: t))
      = fs ++ c :: t := by
    rw [hsplit1, show ds.length + 1 = (ds ++ ['.']).length by simp,
      List.drop_left]
  have hfindX : List.findIdx (fun x => !x.isDigit) (fs ++ c :: t) = fs.length := by
    rw [findIdx_append_all_false _ _ fs hfsfalse,
      findIdx_cons_true _ c t (by simp [hc])]
    omega
  have htakeX : List.take fs.length (fs ++ c :: t) = fs :=
    List.take_left fs (c :: t)
  have hsplit2 : ds ++ '.' :: (fs ++ c :: t) = ((ds ++ ['.']) ++ fs) ++ (c :: t) := by
    simp
  have hdropj : List.drop (ds.length + 1 + fs.length)
      (ds ++ '.' :: (fs ++ c :: t)) = c :: t := by
    rw [hsplit2, show ds.length + 1 + fs.length = ((ds ++ ['.']) ++ fs).length
      by simp only [List.length_append, List.length_cons, List.length_nil],
      List.drop_left]
  have hlen0 : ¬ (ds ++ '.' :: (fs ++ c :: t)).length = 0 := by
    simp [List.length_append]
  have hlenne : ¬ ds.length = (ds ++ '.' :: (fs ++ c :: t)).length := by
    simp only [List.length_append, List.length_cons]
    omega
  have hlenne2 : ¬ ds.length + 1 + fs.length
      = (ds ++ '.' :: (fs ++ c :: t)).length := by
    simp only [List.length_append, List.length_cons]
    omega
  unfold parse_binary_size
  rw [if_neg hlen0]
  simp only [hidx, htake, hgetd, hdropi1, hfindX, hdropj]
  rw [parseU64_digits ds hne hds hval]
  simp only [if_neg hlenne, if_pos rfl]
  cases fs with
  | nil =>
    simp only [List.length_nil, Nat.add_zero, ne_eq, not_true_eq_false,
      if_false, if_neg hlenne2]
    cases hm : suffixMultiplier (c :: t) with
    | none => simp [hm]
    | some m => simp [hm, digitsVal]
  | cons f fs' =>
    have hne2 : ds.length + 1 + (f :: fs').length ≠ ds.length + 1 := by
      simp only [List.length_cons]
      omega
    simp only [if_pos hne2, Nat.add_sub_cancel_left, htakeX]
    rw [parseU64_digits (f :: fs') (by simp) hfs hfval]
    split
    · next heq => simp at heq
    · next b2 i2 heq =>
      rw [if_pos trivial] at heq
      cases heq
      split
      · next hcnd =>
        simp only [List.length_append, List.length_cons] at hcnd
        exfalso
        omega
      · next hcnd =>
        rw [hdropj]

/-- C3 counterexample: the input "0.5KiB" carries a fractional part together
with a unit suffix, and `parse_binary_size` does not return Err on it: it
reaches the not-yet-implemented marker, a panic. -/
theorem parse_fractional_suffix_counterexample :
    parse_binary_size ("0.5KiB".toList) = .unimplemented ∧
    parse_binary_size ("0.5KiB".toList) ≠ .err := by
  constructor <;> decide

/-- C3 as amended: on ASCII inputs, `parse_binary_size` maps a string of
ASCII digits d (value read as a u64) to Ok(d); maps digits followed by B,
KiB, MiB, GiB, TiB, PiB or EiB to Ok(d * 1024^k) for k = 0..6 (product read
as a u64); on an input carrying a fractional part with a nonzero digit
together with a recognised unit suffix it panics with the not-yet-implemented
marker instead of returning Err, while an all-zero fractional part parses as
if absent; and it rejects (returns Err) any digit-leading input whose
trailing suffix is not one of those listed, whether or not a fractional part
intervenes. -/
theorem parse_binary_size_amended :
    (∀ ds : List Char, ds ≠ [] → (∀ c ∈ ds, c.isDigit = true) →
      digitsVal ds < 2 ^ 64 →
      parse_binary_size ds = .ok (digitsVal ds)) ∧
    (∀ (ds suf : List Char) (m : Nat), ds ≠ [] →
      (∀ c ∈ ds, c.isDigit = true) → digitsVal ds < 2 ^ 64 →
      suffixMultiplier suf = some m → digitsVal ds * m < 2 ^ 64 →
      parse_binary_size (ds ++ suf) = .ok (digitsVal ds * m)) ∧
    (∀ (ds fs suf : List Char) (m : Nat), ds ≠ [] →
      (∀ c ∈ ds, c.isDigit = true) → digitsVal ds < 2 ^ 64 →
      (∀ c ∈ fs, c.isDigit = true) → digitsVal fs < 2 ^ 64 →
      suffixMultiplier suf = some m →
      parse_binary_size (ds ++ '.' :: (fs ++ suf)) =
        (if 0 < digitsVal fs then .unimplemented
         else .ok (digitsVal ds * m % 2 ^ 64))) ∧
    (∀ (ds : List Char) (c : Char) (t : List Char), ds ≠ [] →
      (∀ x ∈ ds, x.isDigit = true) → digitsVal ds < 2 ^ 64 →
      (∀ x ∈ c :: t, x.toNat < 128) →
      c.isDigit = false → c ≠ '.' → suffixMultiplier (c :: t) = none →
      parse_binary_size (ds ++ c :: t) = .err) ∧
    (∀ (ds fs : List Char) (c : Char) (t : List Char), ds ≠ [] →
      (∀ x ∈ ds, x.isDigit = true) → digitsVal ds < 2 ^ 64 →
      (∀ x ∈ fs, x.isDigit = true) → digitsVal fs < 2 ^ 64 →
      (∀ x ∈ c :: t, x.toNat < 128) →
      c.isDigit = false → suffixMultiplier (c :: t) = none →
      parse_binary_size (ds ++ '.' :: (fs ++ c :: t)) = .err) := by
  refine ⟨parse_digits_only, ?_, ?_, ?_, ?_⟩
  · intro ds suf m hne hds hval hm hlt
    obtain ⟨c, t, hsuf, hc, hdot⟩ := suffixMultiplier_shape suf m hm
    subst hsuf
    rw [parse_digits_nodigit ds c t hne hds hval hc hdot, hm]
    show ParseOutcome.ok (digitsVal ds * m % 2 ^ 64) = _
    rw [Nat.mod_eq_of_lt hlt]
  · intro ds fs suf m hne hds hval hfs hfval hm
    obtain ⟨c, t, hsuf, hc, -⟩ := suffixMultiplier_shape suf m hm
    subst hsuf
    rw [parse_digits_fraction ds fs c t hne hds hval hfs hfval hc, hm]
  · intro ds c t hne hds hval _ hc hdot hm
    rw [parse_digits_nodigit ds c t hne hds hval hc hdot, hm]
  · intro ds fs c t hne hds hval hfs hfval _ hc hm
    rw [parse_digits_fraction ds fs c t hne hds hval hfs hfval hc, hm]

theorem parse_binary_size_amended_witness :
    (['4'] : List Char) ≠ [] ∧ (∀ c ∈ (['4'] : List Char), c.isDigit = true) ∧
    digitsVal ['4'] < 2 ^ 64 ∧ suffixMultiplier ("KiB".toList) = some 1024 ∧
    digitsVal ['4'] * 1024 < 2 ^ 64 ∧
    parse_binary_size (['4'] ++ "KiB".toList) = .ok (digitsVal ['4'] * 1024) :=
  ⟨by decide, by decide, by decide, by decide, by decide,
    parse_binary_size_amended.2.1 ['4'] ("KiB".toList) 1024 (by decide)
      (by decide) (by decide) (by decide) (by decide)⟩

/-- C10: on ASCII inputs, `parse_binary_size` returns Err only for the empty
string and for digit-leading inputs whose trailing suffix (the characters
from `suffixStart` on) is unrecognised; every non-empty input whose first
character is not an ASCII digit instead panics, on the unwrap of parsing the
empty digit prefix. -/
theorem parse_binary_size_err_classification :
    parse_binary_size [] = .err ∧
    (∀ (c : Char) (t : List Char), (∀ x ∈ c :: t, x.toNat < 128) →
      c.isDigit = false → parse_binary_size (c :: t) = .panicked) ∧
    (∀ input : List Char, (∀ x ∈ input, x.toNat < 128) →
      parse_binary_size input = .err →
      input = [] ∨ ((input.headD ' ').isDigit = true ∧
        suffixMultiplier (input.drop (suffixStart input)) = none)) := by
  refine ⟨rfl, ?_, ?_⟩
  · intro c t _ hc
    have h0 : List.findIdx (fun x => !x.isDigit) (c :: t) = 0 :=
      findIdx_cons_true _ c t (by simp [hc])
    unfold parse_binary_size
    rw [if_neg (by simp)]
    simp only [h0, List.take_zero]
    rfl
  · intro input _ herr
    cases input with
    | nil => exact Or.inl rfl
    | cons a t0 =>
      right
      unfold parse_binary_size at herr
      rw [if_neg (by simp)] at herr
      simp only [] at herr
      split at herr
      · exact ParseOutcome.noConfusion herr
      · next av heq =>
        have hidx0 : List.findIdx (fun c => !c.isDigit) (a :: t0) ≠ 0 := by
          intro h0
          rw [h0, List.take_zero] at heq
          simp [parseU64] at heq
        have hhead : a.isDigit = true := by
          by_contra hna
          exact hidx0 (findIdx_cons_true _ a t0 (by simp [Bool.eq_false_iff.2 hna]))
        refine ⟨by simpa using hhead, ?_⟩
        split at herr
        · exact ParseOutcome.noConfusion herr
        · next hlen =>
          by_cases hdot :
            (a :: t0).getD (List.findIdx (fun c => !c.isDigit) (a :: t0)) ' ' = '.'
          · rw [if_pos hdot] at herr
            have hss : suffixStart (a :: t0)
                = List.findIdx (fun c => !c.isDigit) (a :: t0) + 1
                  + List.findIdx (fun c => !c.isDigit)
                      (List.drop (List.findIdx (fun c => !c.isDigit) (a :: t0) + 1)
                        (a :: t0)) := by
              unfold suffixStart
              simp only []
              rw [if_pos hdot]
            split at herr
            · exact ParseOutcome.noConfusion herr
            · next b2 i2 hstep =>
              split at herr
              · exact ParseOutcome.noConfusion herr
              · next hlen2 =>
                split at herr
                · next hm =>
                  have hij : i2 = List.findIdx (fun c => !c.isDigit) (a :: t0) + 1
                      + List.findIdx (fun c => !c.isDigit)
                          (List.drop (List.findIdx (fun c => !c.isDigit) (a :: t0) + 1)
                            (a :: t0)) := by
                    split at hstep
                    · split at hstep
                      · exact Option.noConfusion hstep
                      · next bv heq3 =>
                        cases hstep
                        rfl
                    · cases hstep
                      rfl
                  rw [hss, ← hij]
                  exact hm
                · next m hm =>
                  split at herr <;> exact ParseOutcome.noConfusion herr
          · rw [if_neg hdot] at herr
            have hss : suffixStart (a :: t0)
                = List.findIdx (fun c => !c.isDigit) (a :: t0) := by
              unfold suffixStart
              simp only []
              rw [if_neg hdot]
            split at herr
            · next hstep => exact Option.noConfusion hstep
            · next b2 i2 hstep =>
              split at herr
              · exact ParseOutcome.noConfusion herr
              · next hlen2 =>
                split at herr
                · next hm =>
                  have hij : i2 = List.findIdx (fun c => !c.isDigit) (a :: t0) := by
                    cases hstep
                    rfl
                  rw [hss, ← hij]
                  exact hm
                · next m hm =>
                  split at herr <;> exact ParseOutcome.noConfusion herr

theorem parse_binary_size_err_classification_witness :
    (∀ x ∈ ('K' :: "iB".toList), x.toNat < 128) ∧
    ('K' : Char).isDigit = false ∧
    parse_binary_size ('K' :: "iB".toList) = .panicked :=
  ⟨by decide, by decide,
    parse_binary_size_err_classification.2.1 'K' ("iB".toList) (by decide)
      (by decide)⟩

end Constellation
